import Mathlib

/-
Verification of src/src/rospkg/rosdistro/distro.py against its design
specification.

Python strings are modelled as List Char. Python exceptions are modelled by
the Except monad with the PyErr error type below. Recursion that Python
bounds only by the interpreter stack (Variant construction) is modelled with
an explicit fuel parameter whose exhaustion corresponds to RecursionError.
-/

/-- Errors raised by the Python code: NameError for reads of unbound names,
KeyError for missing dict keys, RecursionError for unbounded recursion, and
the two exception classes defined by the module, DistroException and its
subclass InvalidDistro. -/
inductive PyErr : Type where
  | nameError : PyErr
  | keyError : PyErr
  | recursionError : PyErr
  | distroException : PyErr
  | invalidDistro : PyErr
deriving DecidableEq

instance {ε α : Type} [DecidableEq ε] [DecidableEq α] : DecidableEq (Except ε α) := fun x y =>
  match x, y with
  | Except.error a, Except.error b =>
      if h : a = b then Decidable.isTrue (congrArg Except.error h)
      else Decidable.isFalse (fun hh => h (Except.error.inj hh))
  | Except.ok a, Except.ok b =>
      if h : a = b then Decidable.isTrue (congrArg Except.ok h)
      else Decidable.isFalse (fun hh => h (Except.ok.inj hh))
  | Except.error _, Except.ok _ => Decidable.isFalse (fun hh => Except.noConfusion hh)
  | Except.ok _, Except.error _ => Decidable.isFalse (fun hh => Except.noConfusion hh)

/-- Python truthiness of an optional string: None and the empty string are
falsy, every other string is truthy. -/
def pyTruthyO (o : Option (List Char)) : Bool :=
  match o with
  | Option.none => false
  | Option.some l => !l.isEmpty

/-- Fuelled worker for pythonReplace. The fuel starts at the length of the
string, which always suffices because each step consumes at least one
character of the input. -/
def replaceGo (pat rep : List Char) : Nat → List Char → List Char
  | _, [] => []
  | 0, s => s
  | fuel + 1, c :: rest =>
    if pat.isPrefixOf (c :: rest) then
      rep ++ replaceGo pat rep fuel ((c :: rest).drop pat.length)
    else
      c :: replaceGo pat rep fuel rest

/-- Model of Python str.replace(pat, rep) for a non-empty pattern pat: every
leftmost, non-overlapping occurrence of pat is replaced by rep. All patterns
passed by distro.py are non-empty literal tokens. -/
def pythonReplace (pat rep s : List Char) : List Char :=
  replaceGo pat rep s.length s

/-- Index of the first occurrence of pat in s, if any. -/
def findSub (pat : List Char) : List Char → Option Nat
  | [] => if pat.isEmpty then Option.some 0 else Option.none
  | c :: rest =>
    if pat.isPrefixOf (c :: rest) then Option.some 0
    else (findSub pat rest).map (· + 1)

/-- Model of Python s.find(pat): the index of the first occurrence, or -1. -/
def pyFind (pat s : List Char) : Int :=
  match findSub pat s with
  | Option.some n => (n : Int)
  | Option.none => -1

def tSTACK_NAME : List Char := "$STACK_NAME".data

def tSTACK_VERSION : List Char := "$STACK_VERSION".data

def tRELEASE_NAME : List Char := "$RELEASE_NAME".data

def tREVISION : List Char := "$REVISION".data

/-- The first three substitutions performed by expand_rule, in source order:
s = rule.replace($STACK_NAME, stack_name), then, only when stack_ver is
truthy, s = s.replace($STACK_VERSION, stack_ver), then
s = s.replace($RELEASE_NAME, release_name). -/
def substBase (rule stack_name : List Char) (stack_ver : Option (List Char))
    (release_name : List Char) : List Char :=
  let s1 := pythonReplace tSTACK_NAME stack_name rule
  let s2 := if pyTruthyO stack_ver then pythonReplace tSTACK_VERSION (stack_ver.getD []) s1 else s1
  pythonReplace tRELEASE_NAME release_name s2

/-- Model of expand_rule (distro.py lines 46-55). After the three base
substitutions it raises DistroException when the substituted string has a
first occurrence of $REVISION at a strictly positive index while revision is
falsy; otherwise, when revision is truthy, $REVISION is substituted. -/
def expand_rule (rule stack_name : List Char) (stack_ver : Option (List Char))
    (release_name : List Char) (revision : Option (List Char)) :
    Except PyErr (List Char) :=
  let s := substBase rule stack_name stack_ver release_name
  if 0 < pyFind tREVISION s ∧ pyTruthyO revision = false then
    Except.error PyErr.distroException
  else if pyTruthyO revision = true then
    Except.ok (pythonReplace tREVISION (revision.getD []) s)
  else
    Except.ok s

/-- The extends value of a variant: either a single string or a list of
strings (distro.py line 117 normalizes a lone string to a one-element list). -/
inductive StrOrList : Type where
  | str : List Char → StrOrList
  | list : List (List Char) → StrOrList
deriving DecidableEq

/-- Raw properties of one variant in the manifest: the optional stacks list
and the optional extends entry. A field holding none models an absent key. -/
structure VariantProps : Type where
  stacks_ : Option (List (List Char))
  ext : Option StrOrList
deriving DecidableEq

/-- Model of the Variant object (distro.py lines 84-125): name, the parents
list stored from extends, the accumulated stack_names, and the directly
specified stack_names_explicit. -/
structure Variant : Type where
  name : List Char
  parents : List (List Char)
  stack_names : List (List Char)
  stack_names_explicit : List (List Char)
deriving DecidableEq

/-- The loop body of Variant.__init__ over the extends list: for each parent
p in order, resolve p and set the running list to
(resolved p).stack_names ++ running list. -/
def prependParents (resolve : List Char → Except PyErr Variant) :
    List (List Char) → List (List Char) → Except PyErr (List (List Char))
  | [], acc => Except.ok acc
  | p :: ps, acc =>
    match resolve p with
    | Except.ok pv => prependParents resolve ps (pv.stack_names ++ acc)
    | Except.error err => Except.error err

/-- Model of Variant.__init__ (distro.py lines 91-125). Looks the variant up
in variants_props (KeyError when absent), raises InvalidDistro when the
properties define neither stacks nor extends, initializes stack_names from
the stacks key, and, when extends is present, normalizes it to a list and
prepends each parent's recursively resolved stack_names in turn. The fuel
models the Python call stack; exhaustion is RecursionError (a cyclic extends
chain never terminates in the source). -/
def mkVariant : Nat → List Char → List (List Char × VariantProps) →
    Except PyErr Variant
  | 0, _, _ => Except.error PyErr.recursionError
  | fuel + 1, variant_name, variants_props =>
    match variants_props.lookup variant_name with
    | Option.none => Except.error PyErr.keyError
    | Option.some props =>
      if props.stacks_.isNone && props.ext.isNone then
        Except.error PyErr.invalidDistro
      else
        let explicit := props.stacks_.getD []
        match props.ext with
        | Option.none => Except.ok ⟨variant_name, [], explicit, explicit⟩
        | Option.some e =>
          let parents := match e with
            | StrOrList.str s => [s]
            | StrOrList.list l => l
          match prependParents (fun p => mkVariant fuel p variants_props) parents explicit with
          | Except.ok sn => Except.ok ⟨variant_name, parents, sn, explicit⟩
          | Except.error err => Except.error err

/-- Variant table for the single-parent example: A has extends B (string
form) and stacks x, B has stacks y and z. -/
def vpSingle : List (List Char × VariantProps) :=
  [("A".data, ⟨Option.some ["x".data], Option.some (StrOrList.str "B".data)⟩),
   ("B".data, ⟨Option.some ["y".data, "z".data], Option.none⟩)]

/-- Variant table for the two-parent counterexample: A has extends B, C and
no own stacks, B has stacks b, C has stacks c. -/
def vpTwo : List (List Char × VariantProps) :=
  [("A".data, ⟨Option.none, Option.some (StrOrList.list ["B".data, "C".data])⟩),
   ("B".data, ⟨Option.some ["b".data], Option.none⟩),
   ("C".data, ⟨Option.some ["c".data], Option.none⟩)]

/-- Variant table for the two-parent witness, with a stack name s shared by
both parents: A has stacks a and extends B, C; B has stacks s, t; C has
stacks s. -/
def vpDup : List (List Char × VariantProps) :=
  [("A".data, ⟨Option.some ["a".data], Option.some (StrOrList.list ["B".data, "C".data])⟩),
   ("B".data, ⟨Option.some ["s".data, "t".data], Option.none⟩),
   ("C".data, ⟨Option.some ["s".data], Option.none⟩)]

/-- Model of the DistroStack object, restricted to the fields the released
queries read: the stack name and the optional version (None models a missing
version key). The vcs_config field of the source is produced by
load_vcs_config, a collaborator defined outside this file, and plays no role
in the claims below. -/
structure DistroStack : Type where
  name : List Char
  version : Option (List Char)
deriving DecidableEq

/-- A parsed Python value, as handed to load_distro by the YAML parser. -/
inductive PyVal : Type where
  | pstr : List Char → PyVal
  | pint : Int → PyVal
  | pdict : List (List Char × PyVal) → PyVal
  | plist : List PyVal → PyVal
  | pnone : PyVal

/-- Model of the Distro aggregate (distro.py lines 127-156): the stacks dict
as an insertion-ordered association list, the variants dict, the release
name, the version, and the retained raw document. -/
structure Distro : Type where
  stacks_ : List (List Char × DistroStack)
  variants : List (List Char × Variant)
  release_name : List Char
  version : List Char
  raw_data : PyVal

/-- Model of Distro.get_released_stacks (distro.py lines 148-153): the
entries of the stacks dict, in order, whose version is truthy, that is
present and non-empty. -/
def get_released_stacks (d : Distro) : List (List Char × DistroStack) :=
  d.stacks_.filter (fun p => pyTruthyO p.2.version)

/-- Model of Distro.get_stack_names (distro.py lines 142-146). With
released=True the body evaluates get_released_stacks().keys(): the bare name
get_released_stacks is unbound (the method was defined on the class, and no
module-level function of that name exists), so the call raises NameError.
With released=False it returns self.stacks.keys(). -/
def get_stack_names (d : Distro) (released : Bool) :
    Except PyErr (List (List Char)) :=
  if released then Except.error PyErr.nameError
  else Except.ok (d.stacks_.map Prod.fst)

/-- Model of load_distro (distro.py lines 158-195) from the point where the
document has been parsed. The first statement of the try block is
stack_props = y[...]: the local name y is never assigned anywhere in the
function (the parsed document is bound to raw_data), so reading it raises
NameError, which neither except clause (yaml.YAMLError at line 170, KeyError
at line 188) catches. Every call therefore fails with NameError before any
manifest validation runs, for well-formed and malformed manifests alike. -/
def load_distro (_raw_data : PyVal) : Except PyErr Distro :=
  Except.error PyErr.nameError

/-- The filter of the stack-name comprehension at distro.py line 175: a key
is kept unless its first character is an underscore (on an empty key the
source would raise IndexError; manifest keys are non-empty). -/
def nonPrivateKey : List Char → Bool
  | [] => true
  | c :: _ => c != '_'

/-- Model of the comprehension at distro.py line 175 (and of the equivalent
skip at lines 216-217): the keys of the stacks mapping, in order, that do
not start with an underscore. -/
def manifest_stack_names (stack_props : List (List Char × PyVal)) :
    List (List Char) :=
  (stack_props.map Prod.fst).filter nonPrivateKey

/-- A well-formed manifest document: a release name, a stacks mapping with
one stack, and an empty variants sequence. -/
def wfManifest : PyVal :=
  PyVal.pdict
    [("stacks".data, PyVal.pdict [("foo".data, PyVal.pdict [])]),
     ("release".data, PyVal.pstr "boxturtle".data),
     ("variants".data, PyVal.plist [])]

/-- The modules imported at the top of distro.py (lines 37-40). Neither re
nor string is among them. -/
def imported_modules : List (List Char) :=
  ["os".data, "sys".data, "urllib2".data, "yaml".data]

/-- Python \s on ASCII input: space, tab, newline, vertical tab, form feed,
carriage return. -/
def isPySpace (c : Char) : Bool :=
  c = ' ' || c = '\t' || c = '\n' || c = '\x0b' || c = '\x0c' || c = '\r'

/-- The character class of the regex group [0-9]. -/
def isPyDigit (c : Char) : Bool :=
  '0' ≤ c && c ≤ '9'

/-- The literal head of the version marker regex at distro.py line 229. -/
def revLit : List Char := "$Revision:".data

/-- Matches the regex tail after the literal: whitespace*, a captured digit
run, whitespace*, then a dollar sign. Because digits, whitespace and the
dollar sign are pairwise disjoint character classes, the greedy maximal-munch
reading used here is the unique possible match, so this equals the
backtracking regex semantics. -/
def revTail (l : List Char) : Option (List Char) :=
  let l1 := l.dropWhile isPySpace
  let ds := l1.takeWhile isPyDigit
  let l2 := (l1.dropWhile isPyDigit).dropWhile isPySpace
  match l2 with
  | '$' :: _ => Option.some ds
  | _ => Option.none

/-- Model of re.search at distro.py line 229: the captured digit group of the
leftmost position where the whole marker pattern matches, if any. -/
def revSearch : List Char → Option (List Char)
  | [] => Option.none
  | c :: rest =>
    if revLit.isPrefixOf (c :: rest) then
      match revTail ((c :: rest).drop revLit.length) with
      | Option.some ds => Option.some ds
      | Option.none => revSearch rest
    else revSearch rest

/-- The rewriting step of _distro_version (lines 229-231): when the marker
pattern is found anywhere in the value, the whole value is replaced by the
letter r followed by the captured digits; otherwise the value is unchanged. -/
def distro_version_rewrite (version_val : List Char) : List Char :=
  match revSearch version_val with
  | Option.some ds => 'r' :: ds
  | Option.none => version_val

/-- The character class accepted by the validation at lines 234-235:
string.ascii_letters + string.digits + the three characters dot, plus,
tilde. -/
def isValidVersChar (c : Char) : Bool :=
  c.isAlpha || c.isDigit || c = '.' || c = '+' || c = '~'

/-- The algorithm written in the body of _distro_version (distro.py lines
224-237), as it would run with the re and string modules available: rewrite
the marker if present, then fail with InvalidDistro when any character of the
result lies outside the accepted class. -/
def distro_version_body (version_val : List Char) : Except PyErr (List Char) :=
  let v := distro_version_rewrite version_val
  if v.all isValidVersChar then Except.ok v else Except.error PyErr.invalidDistro

/-- Model of _distro_version as the module actually executes: line 229
evaluates re.search, but the module never imports re (nor string, used at
line 234), so the first use of the name re raises NameError for every
input. -/
def distro_version_as_run (version_val : List Char) : Except PyErr (List Char) :=
  if "re".data ∈ imported_modules then distro_version_body version_val
  else Except.error PyErr.nameError

/-- When the pattern does not occur in a string, replacing it is the
identity. -/
theorem replaceGo_eq_of_findSub_none (pat rep : List Char) :
    ∀ (fuel : Nat) (s : List Char), findSub pat s = Option.none →
      replaceGo pat rep fuel s = s := by
  intro fuel
  induction fuel with
  | zero => intro s _; cases s <;> simp [replaceGo]
  | succ n ih =>
    intro s h
    cases s with
    | nil => simp [replaceGo]
    | cons c rest =>
      simp only [findSub] at h
      by_cases hp : pat.isPrefixOf (c :: rest) = true
      · rw [if_pos hp] at h; exact absurd h (by simp)
      · rw [if_neg hp] at h
        have h2 : findSub pat rest = Option.none := Option.map_eq_none'.mp h
        simp only [replaceGo]
        rw [if_neg hp, ih rest h2]

/-- pythonReplace form of replaceGo_eq_of_findSub_none. -/
theorem pythonReplace_eq_of_findSub_none (pat rep s : List Char)
    (h : findSub pat s = Option.none) : pythonReplace pat rep s = s :=
  replaceGo_eq_of_findSub_none pat rep s.length s h

/-- Prepending a block whose characters all avoid the pattern's characters
cannot create an occurrence of the pattern. -/
theorem findSub_append_eq_none (pat rep R : List Char) (hpat : pat ≠ [])
    (hd : ∀ c ∈ rep, c ∉ pat) (h : findSub pat R = Option.none) :
    findSub pat (rep ++ R) = Option.none := by
  induction rep with
  | nil => simpa using h
  | cons d rep' ih =>
    have hd' : ∀ c ∈ rep', c ∉ pat := fun c hc => hd c (List.mem_cons_of_mem _ hc)
    have hnp : ¬ pat.isPrefixOf (d :: (rep' ++ R)) = true := by
      intro hc
      cases pat with
      | nil => exact hpat rfl
      | cons p0 pt =>
        simp only [List.isPrefixOf, Bool.and_eq_true, beq_iff_eq] at hc
        obtain ⟨h1, -⟩ := hc
        subst h1
        exact hd p0 (List.mem_cons_self p0 rep') (List.mem_cons_self p0 pt)
    rw [List.cons_append]
    simp only [findSub]
    rw [if_neg hnp, ih hd']
    rfl

/-- A prefix of the output of replaceGo built only from the pattern's own
characters must already be a prefix of the input: the replacement blocks that
replaceGo inserts contain no character of the pattern, so such a prefix can
only traverse characters copied verbatim from the front of the input. -/
theorem isPrefixOf_of_isPrefixOf_replaceGo (pat rep : List Char) (hrep : rep ≠ [])
    (hd : ∀ c ∈ rep, c ∉ pat) :
    ∀ (fuel : Nat) (s q : List Char), (∀ c ∈ q, c ∈ pat) →
      q.isPrefixOf (replaceGo pat rep fuel s) = true → q.isPrefixOf s = true := by
  intro fuel
  induction fuel with
  | zero => intro s q _ hq; cases s <;> simpa [replaceGo] using hq
  | succ n ih =>
    intro s q hqc hq
    cases s with
    | nil => simpa [replaceGo] using hq
    | cons c rest =>
      by_cases hm : pat.isPrefixOf (c :: rest) = true
      · simp only [replaceGo] at hq
        rw [if_pos hm] at hq
        cases q with
        | nil => simp [List.isPrefixOf]
        | cons q0 q' =>
          cases rep with
          | nil => exact absurd rfl hrep
          | cons r0 rep' =>
            simp only [List.cons_append, List.isPrefixOf, Bool.and_eq_true,
              beq_iff_eq] at hq
            obtain ⟨h1, -⟩ := hq
            subst h1
            exact absurd (hqc q0 (List.mem_cons_self _ _))
              (hd q0 (List.mem_cons_self _ _))
      · simp only [replaceGo] at hq
        rw [if_neg hm] at hq
        cases q with
        | nil => simp [List.isPrefixOf]
        | cons q0 q' =>
          simp only [List.isPrefixOf, Bool.and_eq_true, beq_iff_eq] at hq ⊢
          exact ⟨hq.1, ih rest q' (fun x hx => hqc x (List.mem_cons_of_mem _ hx)) hq.2⟩

/-- Replacing a non-empty pattern by a non-empty block sharing no character
with it leaves no occurrence of the pattern: every occurrence of the pattern
in the input is consumed and replaced, and no new occurrence can be
assembled. -/
theorem findSub_replaceGo_eq_none (pat rep : List Char) (hpat : pat ≠ [])
    (hrep : rep ≠ []) (hd : ∀ c ∈ rep, c ∉ pat) :
    ∀ (fuel : Nat) (s : List Char), s.length ≤ fuel →
      findSub pat (replaceGo pat rep fuel s) = Option.none := by
  intro fuel
  induction fuel with
  | zero =>
    intro s hs
    have hnil : s = [] := List.length_eq_zero.mp (Nat.le_zero.mp hs)
    subst hnil
    cases pat with
    | nil => exact absurd rfl hpat
    | cons p0 pt => simp [replaceGo, findSub]
  | succ n ih =>
    intro s hs
    cases s with
    | nil =>
      cases pat with
      | nil => exact absurd rfl hpat
      | cons p0 pt => simp [replaceGo, findSub]
    | cons c rest =>
      by_cases hm : pat.isPrefixOf (c :: rest) = true
      · have hplen : 1 ≤ pat.length := by
          cases pat with
          | nil => exact absurd rfl hpat
          | cons _ _ => simp
        have hlen : ((c :: rest).drop pat.length).length ≤ n := by
          rw [List.length_drop]
          simp only [List.length_cons] at hs ⊢
          omega
        simp only [replaceGo]
        rw [if_pos hm]
        exact findSub_append_eq_none pat rep _ hpat hd (ih _ hlen)
      · have hlen : rest.length ≤ n := by
          simp only [List.length_cons] at hs; omega
        have hR := ih rest hlen
        simp only [replaceGo]
        rw [if_neg hm]
        have hnp : ¬ pat.isPrefixOf (c :: replaceGo pat rep n rest) = true := by
          intro hc
          cases pat with
          | nil => exact absurd rfl hpat
          | cons p0 pt =>
            simp only [List.isPrefixOf, Bool.and_eq_true, beq_iff_eq] at hc
            obtain ⟨h1, h2⟩ := hc
            have hpt : pt.isPrefixOf rest = true :=
              isPrefixOf_of_isPrefixOf_replaceGo (p0 :: pt) rep hrep hd n rest pt
                (fun x hx => List.mem_cons_of_mem _ hx) h2
            apply hm
            simp [List.isPrefixOf, h1, hpt]
        simp only [findSub]
        rw [if_neg hnp, hR]
        rfl

/-- pythonReplace form of findSub_replaceGo_eq_none. -/
theorem findSub_pythonReplace_eq_none (pat rep s : List Char) (hpat : pat ≠ [])
    (hrep : rep ≠ []) (hd : ∀ c ∈ rep, c ∉ pat) :
    findSub pat (pythonReplace pat rep s) = Option.none :=
  findSub_replaceGo_eq_none pat rep hpat hrep hd s.length s (Nat.le_refl _)

/-- A first occurrence at index zero is a prefix occurrence. -/
theorem isPrefixOf_of_findSub_eq_zero (pat s : List Char)
    (h : findSub pat s = Option.some 0) : pat.isPrefixOf s = true := by
  cases s with
  | nil =>
    by_cases hp : pat.isEmpty = true
    · cases pat with
      | nil => simp [List.isPrefixOf]
      | cons _ _ => simp at hp
    · simp only [findSub] at h
      rw [if_neg hp] at h
      exact absurd h (by simp)
  | cons c rest =>
    by_cases hm : pat.isPrefixOf (c :: rest) = true
    · exact hm
    · exfalso
      simp only [findSub] at h
      rw [if_neg hm] at h
      cases hfind : findSub pat rest with
      | none => rw [hfind] at h; simp at h
      | some k => rw [hfind] at h; simp at h

/-- The find-strictly-positive test of the source, in terms of the first
occurrence index. -/
theorem pyFind_pos_iff (pat s : List Char) :
    0 < pyFind pat s ↔ ∃ i, findSub pat s = Option.some i ∧ 0 < i := by
  cases h : findSub pat s with
  | none => simp [pyFind, h]
  | some n =>
    simp only [pyFind, h, Option.some.injEq]
    constructor
    · intro hn
      exact ⟨n, rfl, by exact_mod_cast hn⟩
    · rintro ⟨i, rfl, hi⟩
      exact_mod_cast hi

/-- Evaluation of the extends loop when every parent resolves successfully:
the result is the concatenation of the parents' stack_names in reverse
parent-list order, followed by the initial accumulator. -/
theorem prependParents_eq_ok (resolve : List Char → Except PyErr Variant) :
    ∀ {ps : List (List Char)} {pvs : List Variant},
      List.Forall₂ (fun p pv => resolve p = Except.ok pv) ps pvs →
      ∀ acc : List (List Char),
        prependParents resolve ps acc =
          Except.ok (((pvs.map Variant.stack_names).reverse).flatten ++ acc) := by
  intro ps pvs h
  induction h with
  | nil => intro acc; simp [prependParents]
  | @cons p pv ps' pvs' hpv htail ih =>
    intro acc
    simp only [prependParents, hpv]
    rw [ih (pv.stack_names ++ acc)]
    simp [List.flatten_append, List.append_assoc]

/-- Key filter of the stack-name comprehension, as a predicate on list
shape: a key passes exactly when it does not start with an underscore. -/
theorem nonPrivateKey_eq_true_iff (x : List Char) :
    nonPrivateKey x = true ↔ ∀ t : List Char, x ≠ '_' :: t := by
  cases x with
  | nil => simp [nonPrivateKey]
  | cons c xs =>
    simp only [nonPrivateKey, bne_iff_ne, ne_eq]
    constructor
    · intro h t heq
      injection heq with h1 _
      exact h h1
    · intro h hc
      exact h xs (by rw [hc])

/-- C2: for a variant A with properties extends B (a single string) and
stacks x, and B with stacks y and z, resolving A yields stack_names equal to
y, z, x; in general, with a single parent in string form, the parent's
resolved stack_names list is prepended in front of the child's explicit
stacks by plain concatenation, so no deduplication happens anywhere in the
chain. -/
theorem C2_single_parent_flatten :
    ((mkVariant 2 "A".data vpSingle).map Variant.stack_names
      = Except.ok ["y".data, "z".data, "x".data])
    ∧ (∀ (fuel : Nat) (variant_name parent : List Char)
        (variants_props : List (List Char × VariantProps))
        (props : VariantProps) (pv : Variant),
        variants_props.lookup variant_name = Option.some props →
        props.ext = Option.some (StrOrList.str parent) →
        mkVariant fuel parent variants_props = Except.ok pv →
        mkVariant (fuel + 1) variant_name variants_props =
          Except.ok ⟨variant_name, [parent],
            pv.stack_names ++ props.stacks_.getD [], props.stacks_.getD []⟩) := by
  refine ⟨by decide, ?_⟩
  intro fuel variant_name parent variants_props props pv hlook hext hpv
  have hguard : (props.stacks_.isNone && props.ext.isNone) = false := by
    rw [hext]; simp
  simp [mkVariant, hlook, hguard, hext, prependParents, hpv]

/-- C2 witness: the general single-parent clause applied to the concrete
table vpSingle. -/
theorem C2_single_parent_flatten_witness :
    mkVariant 2 "A".data vpSingle =
      Except.ok ⟨"A".data, ["B".data],
        ["y".data, "z".data, "x".data], ["x".data]⟩ :=
  C2_single_parent_flatten.2 1 "A".data "B".data vpSingle
    ⟨Option.some ["x".data], Option.some (StrOrList.str "B".data)⟩
    ⟨"B".data, [], ["y".data, "z".data], ["y".data, "z".data]⟩
    (by decide) rfl (by decide)

/-- C1 counterexample: for A extending the two parents B then C, where B has
stacks b and C has stacks c, the code produces the flattened list c, b - the
last-listed parent first - and not the claimed parent-list order b, c. -/
theorem C1_counterexample :
    (mkVariant 2 "A".data vpTwo).map Variant.stack_names
        = Except.ok ["c".data, "b".data]
    ∧ (mkVariant 2 "A".data vpTwo).map Variant.stack_names
        ≠ Except.ok ["b".data, "c".data] := by decide

/-- C1 (amended): for a variant whose raw properties list its parents in
extends as a list, the resolved stack_names is the concatenation of the
parents' flattened lists in reverse parent-list order - the last-listed
parent's flattened list first - followed by the variant's own explicit
stacks, with duplicate stack names across branches retained verbatim. -/
theorem C1_multi_parent_order (fuel : Nat) (variant_name : List Char)
    (variants_props : List (List Char × VariantProps)) (props : VariantProps)
    (ps : List (List Char)) (pvs : List Variant)
    (hlook : variants_props.lookup variant_name = Option.some props)
    (hext : props.ext = Option.some (StrOrList.list ps))
    (hps : List.Forall₂
      (fun p pv => mkVariant fuel p variants_props = Except.ok pv) ps pvs) :
    mkVariant (fuel + 1) variant_name variants_props =
      Except.ok ⟨variant_name, ps,
        ((pvs.map Variant.stack_names).reverse).flatten ++ props.stacks_.getD [],
        props.stacks_.getD []⟩ := by
  simp only [mkVariant, hlook, hext, Option.isNone_some, Bool.and_false,
    Bool.false_eq_true, if_false]
  rw [prependParents_eq_ok _ hps]

/-- C1 witness: the amended ordering applied to the table vpDup, in which
the stack s is inherited from both parents and is kept twice. -/
theorem C1_multi_parent_order_witness :
    mkVariant 2 "A".data vpDup =
      Except.ok ⟨"A".data, ["B".data, "C".data],
        ["s".data, "s".data, "t".data, "a".data], ["a".data]⟩ := by
  have h := C1_multi_parent_order 1 "A".data vpDup
    ⟨Option.some ["a".data], Option.some (StrOrList.list ["B".data, "C".data])⟩
    ["B".data, "C".data]
    [⟨"B".data, [], ["s".data, "t".data], ["s".data, "t".data]⟩,
     ⟨"C".data, [], ["s".data], ["s".data]⟩]
    (by decide) rfl
    (List.Forall₂.cons (by decide) (List.Forall₂.cons (by decide) List.Forall₂.nil))
  exact h

/-- C3: with a falsy revision, expand_rule raises DistroException exactly
when the first occurrence of the REVISION token in the substituted string is
at a strictly positive index; with a truthy revision supplied, the REVISION
token is substituted with it; and when the first occurrence is at index
zero and no revision is supplied, no error is raised and the token is left
at the front of the result. -/
theorem C3_revision_guard (rule stack_name : List Char)
    (stack_ver : Option (List Char)) (release_name : List Char) :
    ((expand_rule rule stack_name stack_ver release_name Option.none
        = Except.error PyErr.distroException)
      ↔ ∃ i, findSub tREVISION (substBase rule stack_name stack_ver release_name)
          = Option.some i ∧ 0 < i)
    ∧ (∀ rv : List Char, rv ≠ [] →
        expand_rule rule stack_name stack_ver release_name (Option.some rv)
          = Except.ok (pythonReplace tREVISION rv
              (substBase rule stack_name stack_ver release_name)))
    ∧ (findSub tREVISION (substBase rule stack_name stack_ver release_name)
          = Option.some 0 →
        (expand_rule rule stack_name stack_ver release_name Option.none
            = Except.ok (substBase rule stack_name stack_ver release_name))
          ∧ tREVISION.isPrefixOf
              (substBase rule stack_name stack_ver release_name) = true) := by
  refine ⟨?_, ?_, ?_⟩
  · rw [← pyFind_pos_iff]
    by_cases h0 : 0 < pyFind tREVISION (substBase rule stack_name stack_ver release_name)
    · simp [expand_rule, pyTruthyO, h0]
    · simp [expand_rule, pyTruthyO, h0]
  · intro rv hrv
    have htr : pyTruthyO (Option.some rv) = true := by
      cases rv with
      | nil => exact absurd rfl hrv
      | cons _ _ => simp [pyTruthyO]
    simp [expand_rule, htr]
  · intro h0
    have hfind : pyFind tREVISION (substBase rule stack_name stack_ver release_name) = 0 := by
      simp [pyFind, h0]
    refine ⟨by simp [expand_rule, pyTruthyO, hfind], ?_⟩
    exact isPrefixOf_of_findSub_eq_zero _ _ h0

/-- C3 witness: the three clauses at the template REVISION-x with no other
token present, whose substituted form starts with the REVISION token. -/
theorem C3_revision_guard_witness :
    (expand_rule "$REVISION-x".data "n".data Option.none "r".data Option.none
        = Except.ok (substBase "$REVISION-x".data "n".data Option.none "r".data))
      ∧ tREVISION.isPrefixOf
          (substBase "$REVISION-x".data "n".data Option.none "r".data) = true :=
  (C3_revision_guard "$REVISION-x".data "n".data Option.none "r".data).2.2
    (by decide)

/-- C4: expand_rule sends the claimed example to foo-1.2.tar.gz; replacing
the STACK_NAME token by a non-empty value sharing no character with the
token leaves no occurrence of the token (every occurrence is replaced);
with a falsy stack version the STACK_VERSION token is left untouched (a
template free of the other two tokens passes through the base substitution
unchanged); and the same elimination holds for the RELEASE_NAME token after
the full base substitution. expand_rule is a plain function of its five
arguments, so purity is inherent in the model. -/
theorem C4_expand_substitution :
    (expand_rule "$STACK_NAME-$STACK_VERSION.tar.gz".data "foo".data
        (Option.some "1.2".data) "bar".data Option.none
        = Except.ok "foo-1.2.tar.gz".data)
    ∧ (∀ rule stack_name : List Char, stack_name ≠ [] →
        (∀ c ∈ stack_name, c ∉ tSTACK_NAME) →
        findSub tSTACK_NAME (pythonReplace tSTACK_NAME stack_name rule)
          = Option.none)
    ∧ (∀ rule stack_name release_name : List Char,
        findSub tSTACK_NAME rule = Option.none →
        findSub tRELEASE_NAME rule = Option.none →
        substBase rule stack_name Option.none release_name = rule)
    ∧ (∀ (rule stack_name release_name : List Char)
        (stack_ver : Option (List Char)), release_name ≠ [] →
        (∀ c ∈ release_name, c ∉ tRELEASE_NAME) →
        findSub tRELEASE_NAME (substBase rule stack_name stack_ver release_name)
          = Option.none) := by
  refine ⟨by decide, ?_, ?_, ?_⟩
  · intro rule stack_name hne hd
    exact findSub_pythonReplace_eq_none _ _ _ (by decide) hne hd
  · intro rule stack_name release_name h1 h2
    rw [substBase]
    simp only [pyTruthyO, Bool.false_eq_true, if_false]
    rw [pythonReplace_eq_of_findSub_none _ _ _ h1,
      pythonReplace_eq_of_findSub_none _ _ _ h2]
  · intro rule stack_name release_name stack_ver hne hd
    rw [substBase]
    exact findSub_pythonReplace_eq_none _ _ _ (by decide) hne hd

/-- C4 witness: the token-elimination clause applied to a template with two
occurrences of the STACK_NAME token and the replacement foo. -/
theorem C4_expand_substitution_witness :
    findSub tSTACK_NAME
      (pythonReplace tSTACK_NAME "foo".data "$STACK_NAME/$STACK_NAME".data)
      = Option.none :=
  C4_expand_substitution.2.1 "$STACK_NAME/$STACK_NAME".data "foo".data
    (by decide) (by decide)

/-- C5 counterexample: the template x$STACK_NAME contains no REVISION token,
yet with the stack name $REVISION the result of expand_rule depends on the
revision argument (error without a revision, substituted with one). -/
theorem C5_counterexample :
    findSub tREVISION "x$STACK_NAME".data = Option.none
    ∧ expand_rule "x$STACK_NAME".data "$REVISION".data Option.none "r".data
        Option.none
      ≠ expand_rule "x$STACK_NAME".data "$REVISION".data Option.none "r".data
        (Option.some "42".data) := by decide

/-- C5 (amended): whenever the string obtained from the STACK_NAME,
STACK_VERSION and RELEASE_NAME substitutions contains no occurrence of the
REVISION token - in particular whenever neither the template nor the
substituted values introduce it - the result of expand_rule, including
whether an error is raised, is the same for every revision argument. -/
theorem C5_revision_independent (rule stack_name : List Char)
    (stack_ver : Option (List Char)) (release_name : List Char)
    (h : findSub tREVISION (substBase rule stack_name stack_ver release_name)
      = Option.none) :
    ∀ rev rev' : Option (List Char),
      expand_rule rule stack_name stack_ver release_name rev
        = expand_rule rule stack_name stack_ver release_name rev' := by
  intro rev rev'
  have hfind : pyFind tREVISION (substBase rule stack_name stack_ver release_name)
      = -1 := by
    simp [pyFind, h]
  have hrep : ∀ rv : List Char,
      pythonReplace tREVISION rv (substBase rule stack_name stack_ver release_name)
        = substBase rule stack_name stack_ver release_name :=
    fun rv => pythonReplace_eq_of_findSub_none _ _ _ h
  simp [expand_rule, hfind, hrep]

/-- C5 witness: revision independence at a concrete token-free template. -/
theorem C5_revision_independent_witness :
    expand_rule "dist/$STACK_NAME".data "ros".data Option.none "box".data
        Option.none
      = expand_rule "dist/$STACK_NAME".data "ros".data Option.none "box".data
        (Option.some "9".data) :=
  C5_revision_independent "dist/$STACK_NAME".data "ros".data Option.none
    "box".data (by decide) Option.none (Option.some "9".data)

/-- C10: the missing-revision guard is evaluated on the substituted string,
not on the template: the template a$RELEASE_NAME contains no REVISION token,
but the release name b$REVISIONc introduces one at a strictly positive index
of the substituted string, and expand_rule with no revision raises
DistroException. -/
theorem C10_guard_after_substitution :
    findSub tREVISION "a$RELEASE_NAME".data = Option.none
    ∧ substBase "a$RELEASE_NAME".data "n".data Option.none "b$REVISIONc".data
        = "ab$REVISIONc".data
    ∧ findSub tREVISION "ab$REVISIONc".data = Option.some 2
    ∧ expand_rule "a$RELEASE_NAME".data "n".data Option.none "b$REVISIONc".data
        Option.none = Except.error PyErr.distroException := by decide

/-- C6: the normalization algorithm written in _distro_version maps the
marker value Revision 42 to r42, passes 1.2.3+~ through unchanged, rejects
1.2/3, raises InvalidDistro exactly when the rewritten string contains a
character outside the accepted class, and leaves any value without the
marker unchanged; but as the module executes, every call of _distro_version
raises NameError, because the re module it uses is never imported. -/
theorem C6_distro_version :
    (∀ s : List Char, distro_version_as_run s = Except.error PyErr.nameError)
    ∧ distro_version_body "$Revision: 42 $".data = Except.ok "r42".data
    ∧ distro_version_body "1.2.3+~".data = Except.ok "1.2.3+~".data
    ∧ distro_version_body "1.2/3".data = Except.error PyErr.invalidDistro
    ∧ (∀ s : List Char,
        distro_version_body s = Except.error PyErr.invalidDistro
          ↔ ¬ (distro_version_rewrite s).all isValidVersChar = true)
    ∧ (∀ s : List Char, revSearch s = Option.none →
        distro_version_rewrite s = s) := by
  refine ⟨?_, by decide, by decide, by decide, ?_, ?_⟩
  · intro s
    rw [distro_version_as_run, if_neg (by decide)]
  · intro s
    by_cases hall : (distro_version_rewrite s).all isValidVersChar = true
    · simp [distro_version_body, hall]
    · simp [distro_version_body, hall]
  · intro s h
    rw [distro_version_rewrite, h]

/-- C6 witness: the pass-through clause applied to a plain version value. -/
theorem C6_distro_version_witness :
    distro_version_rewrite "7.8".data = "7.8".data :=
  C6_distro_version.2.2.2.2.2 "7.8".data (by decide)

/-- C7: get_released_stacks keeps exactly the entries of the stacks dict
whose version is present and non-empty, in order, independent of where they
are declared; but get_stack_names with the released flag set raises
NameError instead of returning the names of that subset, because its body
calls get_released_stacks without self. -/
theorem C7_released_stacks (d : Distro) (p : List Char × DistroStack) :
    (p ∈ get_released_stacks d ↔ p ∈ d.stacks_ ∧ pyTruthyO p.2.version = true)
    ∧ get_stack_names d true = Except.error PyErr.nameError := by
  constructor
  · simp [get_released_stacks, List.mem_filter]
  · rfl

/-- C8: load_distro fails with NameError on every input - the try block
begins by reading the unbound local y - so none of the malformed-manifest
cases can surface as InvalidDistro from load_distro; the one validation
that does exist in reachable code, the check in Variant.__init__, raises
InvalidDistro whenever a variant's properties define neither stacks nor
extends. -/
theorem C8_load_errors :
    (∀ raw : PyVal, load_distro raw = Except.error PyErr.nameError)
    ∧ (∀ (fuel : Nat) (variant_name : List Char)
        (variants_props : List (List Char × VariantProps))
        (props : VariantProps),
        variants_props.lookup variant_name = Option.some props →
        props.stacks_ = Option.none → props.ext = Option.none →
        mkVariant (fuel + 1) variant_name variants_props
          = Except.error PyErr.invalidDistro) := by
  refine ⟨fun _ => rfl, ?_⟩
  intro fuel variant_name variants_props props hlook h1 h2
  simp [mkVariant, hlook, h1, h2]

/-- C8 witness: the variant-shape check applied to a table whose single
variant has neither stacks nor extends. -/
theorem C8_load_errors_witness :
    mkVariant 1 "empty".data [("empty".data, ⟨Option.none, Option.none⟩)]
      = Except.error PyErr.invalidDistro :=
  C8_load_errors.2 0 "empty".data [("empty".data, ⟨Option.none, Option.none⟩)]
    ⟨Option.none, Option.none⟩ (by decide) rfl rfl

/-- C9: even on a well-formed manifest load_distro fails with NameError, so
no manifest loads successfully and the claimed round trip can never be
exercised; the stack-name derivation itself (the comprehension at line 175)
yields exactly the keys of the stacks mapping that do not start with an
underscore. -/
theorem C9_stack_names_roundtrip :
    load_distro wfManifest = Except.error PyErr.nameError
    ∧ (∀ (stack_props : List (List Char × PyVal)) (x : List Char),
        x ∈ manifest_stack_names stack_props
          ↔ x ∈ stack_props.map Prod.fst ∧ ∀ t : List Char, x ≠ '_' :: t) := by
  refine ⟨rfl, ?_⟩
  intro stack_props x
  rw [manifest_stack_names, List.mem_filter, nonPrivateKey_eq_true_iff]
